import Mathlib

/-!
Verification of the dice-evaluation engine of the `dnd_dice_roller` crate
(`src/dice.rs`, `src/dice_result.rs`, `src/dice_set.rs`, `src/roll.rs`).

The random source is embedded as an infinite stream of raw naturals plus a
cursor: `gen_range(1, sides + 1)` consumes one raw value `v` and yields
`1 + v % sides`, which models an arbitrary uniform draw in `[1, sides]`
(for `sides ≥ 1`) while keeping evaluation a pure function of the source
state, exactly as a seeded PRNG is.  Rust panics (`expect` on the second
roll, `unwrap` on the indexed dice lookup) are modelled by `Option`:
`none` is the panic.
-/

/-- A deterministic random source: a stream of raw draws and a cursor into
it.  A seeded PRNG is a pure function of its seed state; two sources with
the same stream and cursor are the same seed state. -/
structure Rng where
  stream : Nat → Nat
  idx : Nat

/-- Embeds `rng.gen_range(1, sides + 1)` from `src/dice.rs` lines 185 and
192: one uniform draw in `[1, sides]`, advancing the source.  The raw
stream value is reduced into the requested range. -/
def Rng.genRange (r : Rng) (sides : Nat) : Nat × Rng :=
  (1 + r.stream r.idx % sides, ⟨r.stream, r.idx + 1⟩)

/-- `RollType` from `src/dice.rs` lines 25-33. -/
inductive RollType
| Advantage
| Disadvantage
| Regular
deriving DecidableEq

/-- Modelled from the spec: the declaration of the sign enum is not under
`src/` — only its caller `DiceSet::roll_dice_set_from_rng`
(`src/dice_set.rs` lines 62-65), which matches on `Operation::Addition`
and `Operation::Subtraction`, and the spec's
`sign: enum {Add, Subtract}` (§3).  Variant names follow the caller. -/
inductive Operation
| Addition
| Subtraction
deriving DecidableEq

/-- `Dice` from `src/dice.rs` lines 13-22, extended with the `operation`
field read by `src/dice_set.rs` line 62 (modelled from the spec's `sign`
field, see `Operation`). -/
structure Dice where
  number_of_dice_to_roll : Nat
  sides : Nat
  modifier : Option Int
  roll_type : RollType
  operation : Operation
deriving DecidableEq

/-- `RollResult` from `src/dice_result.rs` lines 22-28 (the same data as
`RawResults` + `final_result` of `src/dice.rs`). -/
structure RollResult where
  first_roll : List Nat
  second_roll : Option (List Nat)
  result : Int
deriving DecidableEq

/-- `DiceSetResults` from `src/dice_result.rs` lines 5-10. -/
structure DiceSetResults where
  dice_results : List RollResult
  final_result : Int
deriving DecidableEq

/-- `DiceSet` from `src/dice_set.rs` lines 13-15. -/
structure DiceSet where
  dice : List Dice

/-- `Roll` from `src/roll.rs` lines 11-13. -/
structure Roll where
  dice_sets : List DiceSet

/-- The draw loop of `src/dice.rs` lines 184-186 (and 191-193): push
`count` draws of `gen_range(1, sides + 1)` in order, threading the
source. -/
def rollDraws : Nat → Nat → Rng → List Nat × Rng
  | 0, _, rng => ([], rng)
  | n + 1, sides, rng =>
    let d := rng.genRange sides
    let rest := rollDraws n sides d.2
    (d.1 :: rest.1, rest.2)

/-- `Dice::roll_dice_from_rng` from `src/dice.rs` lines 181-227: first
draws, optional second draws for Advantage/Disadvantage, then the total —
sum of the first draws plus modifier for Regular, max/min of the two
modified sums for Advantage/Disadvantage.  The `expect` calls on the
second roll results (lines 208 and 218) are modelled by the inner match:
`none` is the panic. -/
def Dice.roll_dice_from_rng (d : Dice) (rng : Rng) : Option (RollResult × Rng) :=
  let first := rollDraws d.number_of_dice_to_roll d.sides rng
  let second : Option (List Nat) × Rng :=
    match d.roll_type with
    | RollType.Advantage | RollType.Disadvantage =>
      let s := rollDraws d.number_of_dice_to_roll d.sides first.2
      (some s.1, s.2)
    | RollType.Regular => (none, first.2)
  let modifier : Int := d.modifier.getD 0
  let result : Option Int :=
    match d.roll_type with
    | RollType.Regular => some ((first.1.sum : Int) + modifier)
    | RollType.Advantage =>
      match second.1 with
      | some s => some (max ((first.1.sum : Int) + modifier) ((s.sum : Int) + modifier))
      | none => none
    | RollType.Disadvantage =>
      match second.1 with
      | some s => some (min ((first.1.sum : Int) + modifier) ((s.sum : Int) + modifier))
      | none => none
  match result with
  | none => none
  | some t => some (⟨first.1, second.1, t⟩, second.2)

/-- The `self.dice.iter().map(|d| d.roll_dice_from_rng(&mut rng)).collect()`
of `src/dice_set.rs` lines 56-60: roll each dice in declaration order,
threading the one source through sequentially. -/
def rollDiceList : List Dice → Rng → Option (List RollResult × Rng)
  | [], rng => some ([], rng)
  | d :: ds, rng =>
    match d.roll_dice_from_rng rng with
    | none => none
    | some (res, rng1) =>
      match rollDiceList ds rng1 with
      | none => none
      | some (rest, rng2) => some (res :: rest, rng2)

/-- The `results.iter().enumerate().fold(0, ...)` of `src/dice_set.rs`
lines 61-66: walk the results with an index, look the index up in the
dice list (`self.dice.get(index).unwrap()` — `none` is the panic), and
add or subtract each result per that dice's operation. -/
def foldTotalAux (dice : List Dice) : Nat → List RollResult → Int → Option Int
  | _, [], acc => some acc
  | i, roll :: rest, acc =>
    match dice[i]? with
    | none => none
    | some d =>
      foldTotalAux dice (i + 1) rest
        (match d.operation with
         | Operation.Addition => acc + roll.result
         | Operation.Subtraction => acc - roll.result)

/-- `DiceSet::roll_dice_set_from_rng` from `src/dice_set.rs` lines 55-69:
roll every dice with the threaded source, then fold the signed total. -/
def DiceSet.roll_dice_set_from_rng (ds : DiceSet) (rng : Rng) :
    Option (DiceSetResults × Rng) :=
  match rollDiceList ds.dice rng with
  | none => none
  | some (results, rng1) =>
    match foldTotalAux ds.dice 0 results 0 with
    | none => none
    | some total => some (⟨results, total⟩, rng1)

/-- The `self.dice_sets.iter().map(|d| d.roll_dice_set_from_rng(&mut rng)).collect()`
of `src/roll.rs` lines 63-68: evaluate each dice set in declaration
order, threading the one source through sequentially. -/
def rollSetsList : List DiceSet → Rng → Option (List DiceSetResults × Rng)
  | [], rng => some ([], rng)
  | ds :: rest, rng =>
    match ds.roll_dice_set_from_rng rng with
    | none => none
    | some (res, rng1) =>
      match rollSetsList rest rng1 with
      | none => none
      | some (l, rng2) => some (res :: l, rng2)

/-- `Roll::roll_from_rng` from `src/roll.rs` lines 63-68. -/
def Roll.roll_from_rng (r : Roll) (rng : Rng) : Option (List DiceSetResults × Rng) :=
  rollSetsList r.dice_sets rng

/-- Rust's `{:?}` debug rendering of a `Vec<u32>`: bracketed,
comma-space-separated decimal values, as exercised by the tests in
`src/dice_result.rs` lines 53-63. -/
def debugFmtList (l : List Nat) : String :=
  "[" ++ String.intercalate ", " (l.map Nat.repr) ++ "]"

/-- `impl fmt::Display for RollResult` from `src/dice_result.rs` lines
40-47: the first list alone when there is no second roll, otherwise the
bracketed pair of the two lists. -/
def RollResult.display (r : RollResult) : String :=
  match r.second_roll with
  | none => debugFmtList r.first_roll
  | some second_roll =>
    "[" ++ debugFmtList r.first_roll ++ ", " ++ debugFmtList second_roll ++ "]"

/-- The spec's fold formula (§4.3): `total = Σ (sign==Add ? r.total :
−r.total)` over the component results in order, pairing each result with
its dice.  Stated from the spec's words, to be compared with the
index-based fold `foldTotalAux` of the source. -/
def specSignedTotal : List Dice → List RollResult → Int
  | d :: ds, r :: rs =>
    (match d.operation with
     | Operation.Addition => r.result
     | Operation.Subtraction => -r.result) + specSignedTotal ds rs
  | _, _ => 0

-- Basic facts about the draw loop.

lemma rollDraws_length (n sides : Nat) (rng : Rng) :
    (rollDraws n sides rng).1.length = n := by
  induction n generalizing rng with
  | zero => rfl
  | succ k ih => simpa [rollDraws] using ih _

lemma rollDraws_range (n sides : Nat) (rng : Rng) (hs : 1 ≤ sides) :
    ∀ x ∈ (rollDraws n sides rng).1, 1 ≤ x ∧ x ≤ sides := by
  induction n generalizing rng with
  | zero => intro x hx; simp [rollDraws] at hx
  | succ k ih =>
    intro x hx
    simp only [rollDraws, Rng.genRange, List.mem_cons] at hx
    rcases hx with hx | hx
    · subst hx
      refine ⟨Nat.le_add_right 1 _, ?_⟩
      have h2 : rng.stream rng.idx % sides < sides := Nat.mod_lt _ (by omega)
      omega
    · exact ih _ x hx

-- Explicit shapes of a single dice evaluation, one per roll type.

lemma roll_dice_regular (d : Dice) (rng : Rng) (h : d.roll_type = RollType.Regular) :
    d.roll_dice_from_rng rng =
      some (⟨(rollDraws d.number_of_dice_to_roll d.sides rng).1, none,
             ((rollDraws d.number_of_dice_to_roll d.sides rng).1.sum : Int) +
               d.modifier.getD 0⟩,
            (rollDraws d.number_of_dice_to_roll d.sides rng).2) := by
  obtain ⟨c, s, m, t, op⟩ := d
  simp only at h
  subst h
  rfl

lemma roll_dice_advantage (d : Dice) (rng : Rng) (h : d.roll_type = RollType.Advantage) :
    d.roll_dice_from_rng rng =
      some (⟨(rollDraws d.number_of_dice_to_roll d.sides rng).1,
             some (rollDraws d.number_of_dice_to_roll d.sides
                     (rollDraws d.number_of_dice_to_roll d.sides rng).2).1,
             max (((rollDraws d.number_of_dice_to_roll d.sides rng).1.sum : Int) +
                    d.modifier.getD 0)
                 (((rollDraws d.number_of_dice_to_roll d.sides
                      (rollDraws d.number_of_dice_to_roll d.sides rng).2).1.sum : Int) +
                    d.modifier.getD 0)⟩,
            (rollDraws d.number_of_dice_to_roll d.sides
               (rollDraws d.number_of_dice_to_roll d.sides rng).2).2) := by
  obtain ⟨c, s, m, t, op⟩ := d
  simp only at h
  subst h
  rfl

lemma roll_dice_disadvantage (d : Dice) (rng : Rng)
    (h : d.roll_type = RollType.Disadvantage) :
    d.roll_dice_from_rng rng =
      some (⟨(rollDraws d.number_of_dice_to_roll d.sides rng).1,
             some (rollDraws d.number_of_dice_to_roll d.sides
                     (rollDraws d.number_of_dice_to_roll d.sides rng).2).1,
             min (((rollDraws d.number_of_dice_to_roll d.sides rng).1.sum : Int) +
                    d.modifier.getD 0)
                 (((rollDraws d.number_of_dice_to_roll d.sides
                      (rollDraws d.number_of_dice_to_roll d.sides rng).2).1.sum : Int) +
                    d.modifier.getD 0)⟩,
            (rollDraws d.number_of_dice_to_roll d.sides
               (rollDraws d.number_of_dice_to_roll d.sides rng).2).2) := by
  obtain ⟨c, s, m, t, op⟩ := d
  simp only at h
  subst h
  rfl

/-- A single dice evaluation never hits the `expect` panic: it always
returns a value. -/
lemma roll_dice_isSome (d : Dice) (rng : Rng) :
    ∃ res rng1, d.roll_dice_from_rng rng = some (res, rng1) := by
  rcases ht : d.roll_type with _ | _ | _
  · exact ⟨_, _, roll_dice_advantage d rng ht⟩
  · exact ⟨_, _, roll_dice_disadvantage d rng ht⟩
  · exact ⟨_, _, roll_dice_regular d rng ht⟩

-- The signed fold of a dice set, compared with the spec's formula.

lemma specSignedTotal_nil (dice : List Dice) : specSignedTotal dice [] = 0 := by
  cases dice <;> rfl

lemma foldTotalAux_spec (dice : List Dice) (results : List RollResult) :
    ∀ (i : Nat) (acc : Int), i + results.length ≤ dice.length →
      foldTotalAux dice i results acc =
        some (acc + specSignedTotal (dice.drop i) results) := by
  induction results with
  | nil =>
    intro i acc h
    simp [foldTotalAux, specSignedTotal_nil]
  | cons r rs ih =>
    intro i acc h
    have hi : i < dice.length := by
      simp only [List.length_cons] at h
      omega
    have hget : dice[i]? = some dice[i] := List.getElem?_eq_getElem hi
    have hdrop : dice.drop i = dice[i] :: dice.drop (i + 1) :=
      List.drop_eq_getElem_cons hi
    have hlen : i + 1 + rs.length ≤ dice.length := by
      simp only [List.length_cons] at h
      omega
    cases hop : dice[i].operation with
    | Addition =>
      simp only [foldTotalAux, hget, hop, ih (i + 1) (acc + r.result) hlen, hdrop,
        specSignedTotal]
      congr 1
      ring
    | Subtraction =>
      simp only [foldTotalAux, hget, hop, ih (i + 1) (acc - r.result) hlen, hdrop,
        specSignedTotal]
      congr 1
      ring

-- Threading a random source through a list of dice.

lemma rollDiceList_some (dice : List Dice) (rng : Rng) :
    ∃ results rng1, rollDiceList dice rng = some (results, rng1) ∧
      results.length = dice.length := by
  induction dice generalizing rng with
  | nil => exact ⟨[], rng, rfl, rfl⟩
  | cons d ds ih =>
    obtain ⟨res, rng1, h1⟩ := roll_dice_isSome d rng
    obtain ⟨rest, rng2, h2, hlen⟩ := ih rng1
    exact ⟨res :: rest, rng2, by simp only [rollDiceList, h1, h2], by simp [hlen]⟩

lemma rollDiceList_split (i : Nat) :
    ∀ (dice : List Dice) (rng : Rng) (results : List RollResult) (rng2 : Rng),
      rollDiceList dice rng = some (results, rng2) →
      ∃ rngMid,
        rollDiceList (dice.take i) rng = some (results.take i, rngMid) ∧
        rollDiceList (dice.drop i) rngMid = some (results.drop i, rng2) := by
  induction i with
  | zero =>
    intro dice rng results rng2 h
    exact ⟨rng, rfl, h⟩
  | succ k ih =>
    intro dice rng results rng2 h
    cases dice with
    | nil =>
      simp only [rollDiceList, Option.some.injEq, Prod.mk.injEq] at h
      obtain ⟨h1, h2⟩ := h
      subst h1
      subst h2
      exact ⟨_, rfl, rfl⟩
    | cons d ds =>
      rcases hd : d.roll_dice_from_rng rng with _ | ⟨res, rng1⟩
      · simp [rollDiceList, hd] at h
      · rcases hrest : rollDiceList ds rng1 with _ | ⟨rest, rngEnd⟩
        · simp [rollDiceList, hd, hrest] at h
        · simp only [rollDiceList, hd, hrest, Option.some.injEq, Prod.mk.injEq] at h
          obtain ⟨h1, h2⟩ := h
          subst h1
          subst h2
          obtain ⟨rngMid, hTake, hDrop⟩ := ih ds rng1 rest rngEnd hrest
          refine ⟨rngMid, ?_, ?_⟩
          · simp only [List.take_succ_cons, rollDiceList, hd, hTake]
          · simpa using hDrop

lemma rollDiceList_get (dice : List Dice) (rng : Rng) (results : List RollResult)
    (rng2 : Rng) (h : rollDiceList dice rng = some (results, rng2))
    (i : Nat) (hi : i < dice.length) (hir : i < results.length) :
    ∃ rngMid rngNext,
      rollDiceList (dice.take i) rng = some (results.take i, rngMid) ∧
      dice[i].roll_dice_from_rng rngMid = some (results[i], rngNext) ∧
      rollDiceList (dice.drop (i + 1)) rngNext = some (results.drop (i + 1), rng2) := by
  obtain ⟨rngMid, hTake, hDrop⟩ := rollDiceList_split i dice rng results rng2 h
  rw [List.drop_eq_getElem_cons hi, List.drop_eq_getElem_cons hir] at hDrop
  obtain ⟨res, rngNext, hstep⟩ := roll_dice_isSome dice[i] rngMid
  rcases hr : rollDiceList (dice.drop (i + 1)) rngNext with _ | ⟨rest2, rngEnd⟩
  · simp [rollDiceList, hstep, hr] at hDrop
  · simp only [rollDiceList, hstep, hr, Option.some.injEq, Prod.mk.injEq,
      List.cons.injEq] at hDrop
    obtain ⟨⟨h1, h2⟩, h3⟩ := hDrop
    subst h1
    subst h2
    subst h3
    exact ⟨rngMid, rngNext, hTake, hstep, hr⟩

-- A dice set evaluation in terms of the threaded list and the spec fold.

lemma roll_dice_set_shape (ds : DiceSet) (rng : Rng) :
    ∃ results rng1, rollDiceList ds.dice rng = some (results, rng1) ∧
      results.length = ds.dice.length ∧
      ds.roll_dice_set_from_rng rng =
        some (⟨results, specSignedTotal ds.dice results⟩, rng1) := by
  obtain ⟨results, rng1, h, hlen⟩ := rollDiceList_some ds.dice rng
  have hfold := foldTotalAux_spec ds.dice results 0 0 (by omega)
  refine ⟨results, rng1, h, hlen, ?_⟩
  simp only [List.drop_zero, zero_add] at hfold
  simp only [DiceSet.roll_dice_set_from_rng, h, hfold]

lemma roll_dice_set_isSome (ds : DiceSet) (rng : Rng) :
    ∃ res rng1, ds.roll_dice_set_from_rng rng = some (res, rng1) := by
  obtain ⟨results, rng1, _, _, hshape⟩ := roll_dice_set_shape ds rng
  exact ⟨_, _, hshape⟩

-- Threading a random source through a list of dice sets.

lemma rollSetsList_some (sets : List DiceSet) (rng : Rng) :
    ∃ results rng1, rollSetsList sets rng = some (results, rng1) ∧
      results.length = sets.length := by
  induction sets generalizing rng with
  | nil => exact ⟨[], rng, rfl, rfl⟩
  | cons s ss ih =>
    obtain ⟨res, rng1, h1⟩ := roll_dice_set_isSome s rng
    obtain ⟨rest, rng2, h2, hlen⟩ := ih rng1
    exact ⟨res :: rest, rng2, by simp only [rollSetsList, h1, h2], by simp [hlen]⟩

lemma rollSetsList_split (i : Nat) :
    ∀ (sets : List DiceSet) (rng : Rng) (results : List DiceSetResults) (rng2 : Rng),
      rollSetsList sets rng = some (results, rng2) →
      ∃ rngMid,
        rollSetsList (sets.take i) rng = some (results.take i, rngMid) ∧
        rollSetsList (sets.drop i) rngMid = some (results.drop i, rng2) := by
  induction i with
  | zero =>
    intro sets rng results rng2 h
    exact ⟨rng, rfl, h⟩
  | succ k ih =>
    intro sets rng results rng2 h
    cases sets with
    | nil =>
      simp only [rollSetsList, Option.some.injEq, Prod.mk.injEq] at h
      obtain ⟨h1, h2⟩ := h
      subst h1
      subst h2
      exact ⟨_, rfl, rfl⟩
    | cons s ss =>
      rcases hd : s.roll_dice_set_from_rng rng with _ | ⟨res, rng1⟩
      · simp [rollSetsList, hd] at h
      · rcases hrest : rollSetsList ss rng1 with _ | ⟨rest, rngEnd⟩
        · simp [rollSetsList, hd, hrest] at h
        · simp only [rollSetsList, hd, hrest, Option.some.injEq, Prod.mk.injEq] at h
          obtain ⟨h1, h2⟩ := h
          subst h1
          subst h2
          obtain ⟨rngMid, hTake, hDrop⟩ := ih ss rng1 rest rngEnd hrest
          refine ⟨rngMid, ?_, ?_⟩
          · simp only [List.take_succ_cons, rollSetsList, hd, hTake]
          · simpa using hDrop

lemma rollSetsList_get (sets : List DiceSet) (rng : Rng)
    (results : List DiceSetResults) (rng2 : Rng)
    (h : rollSetsList sets rng = some (results, rng2))
    (i : Nat) (hi : i < sets.length) (hir : i < results.length) :
    ∃ rngMid rngNext,
      rollSetsList (sets.take i) rng = some (results.take i, rngMid) ∧
      sets[i].roll_dice_set_from_rng rngMid = some (results[i], rngNext) ∧
      rollSetsList (sets.drop (i + 1)) rngNext = some (results.drop (i + 1), rng2) := by
  obtain ⟨rngMid, hTake, hDrop⟩ := rollSetsList_split i sets rng results rng2 h
  rw [List.drop_eq_getElem_cons hi, List.drop_eq_getElem_cons hir] at hDrop
  obtain ⟨res, rngNext, hstep⟩ := roll_dice_set_isSome sets[i] rngMid
  rcases hr : rollSetsList (sets.drop (i + 1)) rngNext with _ | ⟨rest2, rngEnd⟩
  · simp [rollSetsList, hstep, hr] at hDrop
  · simp only [rollSetsList, hstep, hr, Option.some.injEq, Prod.mk.injEq,
      List.cons.injEq] at hDrop
    obtain ⟨⟨h1, h2⟩, h3⟩ := hDrop
    subst h1
    subst h2
    subst h3
    exact ⟨rngMid, rngNext, hTake, hstep, hr⟩

-- Claim theorems.

/-- C1: For every Dice with mode Advantage or Disadvantage, sides ≥ 1, and
any random source, evaluation draws a second sequence of the same length
and range as the first, and the returned total is the max (Advantage)
resp. min (Disadvantage) of the two candidate sums, the modifier
(defaulting to 0 when absent) applied once to each candidate sum before
the max/min is taken. -/
theorem C1_advantage_disadvantage_evaluation (d : Dice) (rng : Rng)
    (hs : 1 ≤ d.sides)
    (hm : d.roll_type = RollType.Advantage ∨ d.roll_type = RollType.Disadvantage) :
    ∃ res rng1, d.roll_dice_from_rng rng = some (res, rng1) ∧
      ∃ s, res.second_roll = some s ∧
        res.first_roll.length = d.number_of_dice_to_roll ∧
        s.length = d.number_of_dice_to_roll ∧
        (∀ x ∈ s, 1 ≤ x ∧ x ≤ d.sides) ∧
        (d.roll_type = RollType.Advantage →
          res.result = max ((res.first_roll.sum : Int) + d.modifier.getD 0)
            ((s.sum : Int) + d.modifier.getD 0)) ∧
        (d.roll_type = RollType.Disadvantage →
          res.result = min ((res.first_roll.sum : Int) + d.modifier.getD 0)
            ((s.sum : Int) + d.modifier.getD 0)) := by
  rcases hm with h | h
  · refine ⟨_, _, roll_dice_advantage d rng h, _, rfl,
      rollDraws_length _ _ _, rollDraws_length _ _ _,
      rollDraws_range _ _ _ hs, fun _ => rfl, fun habs => ?_⟩
    rw [h] at habs
    cases habs
  · refine ⟨_, _, roll_dice_disadvantage d rng h, _, rfl,
      rollDraws_length _ _ _, rollDraws_length _ _ _,
      rollDraws_range _ _ _ hs, fun habs => ?_, fun _ => rfl⟩
    rw [h] at habs
    cases habs

/-- C3: For every Dice with mode Regular, sides ≥ 1, and any random
source, the result has no second draw sequence and its total is the sum
of the first draws plus the modifier (0 when absent). -/
theorem C3_regular_evaluation (d : Dice) (rng : Rng) (_hs : 1 ≤ d.sides)
    (hm : d.roll_type = RollType.Regular) :
    ∃ res rng1, d.roll_dice_from_rng rng = some (res, rng1) ∧
      res.second_roll = none ∧
      res.result = (res.first_roll.sum : Int) + d.modifier.getD 0 :=
  ⟨_, _, roll_dice_regular d rng hm, rfl, rfl⟩

/-- C4: For every Dice with sides ≥ 1 and any random source, the first
draws have length `count`, the second draw sequence is present iff the
mode is not Regular and then also has length `count`, and every drawn
value lies in `[1, sides]`. -/
theorem C4_draw_invariants (d : Dice) (rng : Rng) (hs : 1 ≤ d.sides) :
    ∃ res rng1, d.roll_dice_from_rng rng = some (res, rng1) ∧
      res.first_roll.length = d.number_of_dice_to_roll ∧
      (res.second_roll.isSome = true ↔ d.roll_type ≠ RollType.Regular) ∧
      (∀ x ∈ res.first_roll, 1 ≤ x ∧ x ≤ d.sides) ∧
      ∀ s, res.second_roll = some s →
        s.length = d.number_of_dice_to_roll ∧ ∀ x ∈ s, 1 ≤ x ∧ x ≤ d.sides := by
  rcases ht : d.roll_type with _ | _ | _
  · refine ⟨_, _, roll_dice_advantage d rng ht, rollDraws_length _ _ _,
      by simp [ht], rollDraws_range _ _ _ hs, ?_⟩
    intro s hs2
    cases hs2
    exact ⟨rollDraws_length _ _ _, rollDraws_range _ _ _ hs⟩
  · refine ⟨_, _, roll_dice_disadvantage d rng ht, rollDraws_length _ _ _,
      by simp [ht], rollDraws_range _ _ _ hs, ?_⟩
    intro s hs2
    cases hs2
    exact ⟨rollDraws_length _ _ _, rollDraws_range _ _ _ hs⟩
  · refine ⟨_, _, roll_dice_regular d rng ht, rollDraws_length _ _ _,
      by simp [ht], rollDraws_range _ _ _ hs, ?_⟩
    intro s hs2
    cases hs2

/-- C9: For every Dice with count 0 and sides ≥ 1, evaluation is legal:
the first draw list is empty, the second draw list is empty (when
present, i.e. when the mode is not Regular), and for Regular mode the
total is just the modifier (0 when absent). -/
theorem C9_zero_count_evaluation (d : Dice) (rng : Rng)
    (hc : d.number_of_dice_to_roll = 0) (_hs : 1 ≤ d.sides) :
    ∃ res rng1, d.roll_dice_from_rng rng = some (res, rng1) ∧
      res.first_roll = [] ∧
      (d.roll_type ≠ RollType.Regular → res.second_roll = some []) ∧
      (d.roll_type = RollType.Regular → res.result = d.modifier.getD 0) := by
  rcases ht : d.roll_type with _ | _ | _
  · refine ⟨_, _, roll_dice_advantage d rng ht, by simp [hc, rollDraws],
      fun _ => by simp [hc, rollDraws], fun habs => by cases habs⟩
  · refine ⟨_, _, roll_dice_disadvantage d rng ht, by simp [hc, rollDraws],
      fun _ => by simp [hc, rollDraws], fun habs => by cases habs⟩
  · refine ⟨_, _, roll_dice_regular d rng ht, by simp [hc, rollDraws],
      fun habs => absurd rfl habs, fun _ => by simp [hc, rollDraws]⟩

/-- C2: For every DiceSet and any random source, evaluation rolls each
owned Dice in declaration order against the same sequentially threaded
source, keeps the per-component results in declaration order, and returns
as total the signed fold over the results: added for Addition, subtracted
for Subtraction, starting from 0 (the spec's formula `specSignedTotal`). -/
theorem C2_dice_set_signed_fold (ds : DiceSet) (rng : Rng) :
    ∃ results rng1,
      rollDiceList ds.dice rng = some (results, rng1) ∧
      ds.roll_dice_set_from_rng rng =
        some (⟨results, specSignedTotal ds.dice results⟩, rng1) ∧
      results.length = ds.dice.length ∧
      ∀ (i : Nat) (hi : i < ds.dice.length) (hir : i < results.length),
        ∃ rngMid rngNext,
          rollDiceList (ds.dice.take i) rng = some (results.take i, rngMid) ∧
          ds.dice[i].roll_dice_from_rng rngMid = some (results[i], rngNext) ∧
          rollDiceList (ds.dice.drop (i + 1)) rngNext =
            some (results.drop (i + 1), rng1) := by
  obtain ⟨results, rng1, h, hlen, hshape⟩ := roll_dice_set_shape ds rng
  exact ⟨results, rng1, h, hshape, hlen,
    fun i hi hir => rollDiceList_get ds.dice rng results rng1 h i hi hir⟩

/-- C5: For every Roll and any random source, evaluation produces exactly
one DiceSetResults per owned DiceSet in declaration order, each DiceSet
evaluated against the same threaded source so that set `i`'s draws are
strictly sequential and non-overlapping: set `i` is evaluated from
exactly the source state left by the first `i` sets, and the remaining
sets continue from the state it leaves. -/
theorem C5_roll_sequential_sets (ro : Roll) (rng : Rng) :
    ∃ results rng1, ro.roll_from_rng rng = some (results, rng1) ∧
      results.length = ro.dice_sets.length ∧
      ∀ (i : Nat) (hi : i < ro.dice_sets.length) (hir : i < results.length),
        ∃ rngMid rngNext,
          rollSetsList (ro.dice_sets.take i) rng = some (results.take i, rngMid) ∧
          ro.dice_sets[i].roll_dice_set_from_rng rngMid = some (results[i], rngNext) ∧
          rollSetsList (ro.dice_sets.drop (i + 1)) rngNext =
            some (results.drop (i + 1), rng1) := by
  obtain ⟨results, rng1, h, hlen⟩ := rollSetsList_some ro.dice_sets rng
  exact ⟨results, rng1, h, hlen,
    fun i hi hir => rollSetsList_get ro.dice_sets rng results rng1 h i hi hir⟩

/-- C6: Evaluating the same Dice, DiceSet, or Roll value with two random
sources in the same seed state (same stream, same cursor) produces
identical results — draw sequences and totals alike — on every
repetition. -/
theorem C6_determinism (r1 r2 : Rng) (hstream : r1.stream = r2.stream)
    (hidx : r1.idx = r2.idx) :
    (∀ d : Dice, d.roll_dice_from_rng r1 = d.roll_dice_from_rng r2) ∧
    (∀ ds : DiceSet, ds.roll_dice_set_from_rng r1 = ds.roll_dice_set_from_rng r2) ∧
    (∀ ro : Roll, ro.roll_from_rng r1 = ro.roll_from_rng r2) := by
  obtain ⟨s1, i1⟩ := r1
  obtain ⟨s2, i2⟩ := r2
  simp only at hstream hidx
  subst hstream
  subst hidx
  exact ⟨fun _ => rfl, fun _ => rfl, fun _ => rfl⟩

/-- C7: For every well-formed Dice, DiceSet, or Roll value with sides ≥ 1
for every contained Dice, evaluation never fails: the `expect` calls on
the second roll and the indexed `unwrap` in the DiceSet fold (all
modelled as the `none` branches) are unreachable, so evaluation always
returns a value. -/
theorem C7_evaluation_never_fails :
    (∀ (d : Dice) (rng : Rng), 1 ≤ d.sides →
      (d.roll_dice_from_rng rng).isSome = true) ∧
    (∀ (ds : DiceSet) (rng : Rng), (∀ d ∈ ds.dice, 1 ≤ d.sides) →
      (ds.roll_dice_set_from_rng rng).isSome = true) ∧
    (∀ (ro : Roll) (rng : Rng), (∀ ds ∈ ro.dice_sets, ∀ d ∈ ds.dice, 1 ≤ d.sides) →
      (ro.roll_from_rng rng).isSome = true) := by
  refine ⟨fun d rng _ => ?_, fun ds rng _ => ?_, fun ro rng _ => ?_⟩
  · obtain ⟨res, rng1, h⟩ := roll_dice_isSome d rng
    rw [h]
    rfl
  · obtain ⟨res, rng1, h⟩ := roll_dice_set_isSome ds rng
    rw [h]
    rfl
  · obtain ⟨res, rng1, h, _⟩ := rollSetsList_some ro.dice_sets rng
    rw [Roll.roll_from_rng, h]
    rfl

/-- C8: The human-readable rendering of a roll result is the bracketed
comma-separated first draw list when the second draw list is absent, and
the bracketed pair of the two bracketed lists when present; in
particular `[1,2,3,4]` alone renders as `"[1, 2, 3, 4]"` and
`[4,2,1,3]` with `[5,2,3,4]` renders as
`"[[4, 2, 1, 3], [5, 2, 3, 4]]"`. -/
theorem C8_display_rendering (f s : List Nat) (t u : Int) :
    (RollResult.mk f none t).display = debugFmtList f ∧
    (RollResult.mk f (some s) t).display =
      "[" ++ debugFmtList f ++ ", " ++ debugFmtList s ++ "]" ∧
    (RollResult.mk [1, 2, 3, 4] none u).display = "[1, 2, 3, 4]" ∧
    (RollResult.mk [4, 2, 1, 3] (some [5, 2, 3, 4]) u).display =
      "[[4, 2, 1, 3], [5, 2, 3, 4]]" :=
  ⟨rfl, rfl, rfl, rfl⟩

/-- Replaces a dice's roll type, all other fields unchanged: the
otherwise-identical dice of C10. -/
def Dice.withRollType (d : Dice) (t : RollType) : Dice :=
  ⟨d.number_of_dice_to_roll, d.sides, d.modifier, t, d.operation⟩

/-- C10: From one and the same source state, the Advantage and
Disadvantage variants of a dice draw identical first and second
sequences (and leave the source in the same state), and the Advantage
total is at least the Disadvantage total. -/
theorem C10_advantage_ge_disadvantage (d : Dice) (rng : Rng) (_hs : 1 ≤ d.sides) :
    ∃ ra rngA rd rngD,
      (d.withRollType RollType.Advantage).roll_dice_from_rng rng = some (ra, rngA) ∧
      (d.withRollType RollType.Disadvantage).roll_dice_from_rng rng = some (rd, rngD) ∧
      ra.first_roll = rd.first_roll ∧
      ra.second_roll = rd.second_roll ∧
      rngA = rngD ∧
      rd.result ≤ ra.result := by
  refine ⟨_, _, _, _,
    roll_dice_advantage (d.withRollType RollType.Advantage) rng rfl,
    roll_dice_disadvantage (d.withRollType RollType.Disadvantage) rng rfl,
    rfl, rfl, rfl, min_le_max⟩

-- Concrete inputs for the witnesses.

/-- A concrete random source: the raw stream 0, 1, 2, ... from cursor 0. -/
def rngW : Rng := ⟨fun i => i, 0⟩

/-- Two six-sided dice with a +3 modifier, rolled with advantage. -/
def diceAdvW : Dice := ⟨2, 6, some 3, RollType.Advantage, Operation.Addition⟩

/-- Three six-sided dice with a +2 modifier, rolled regularly. -/
def diceRegW : Dice := ⟨3, 6, some 2, RollType.Regular, Operation.Addition⟩

/-- One four-sided die, no modifier, subtracted from its set's total. -/
def diceSubW : Dice := ⟨1, 4, none, RollType.Regular, Operation.Subtraction⟩

/-- Zero six-sided dice with a +4 modifier. -/
def diceZeroW : Dice := ⟨0, 6, some 4, RollType.Regular, Operation.Addition⟩

/-- A set mixing an added and a subtracted dice group. -/
def diceSetW : DiceSet := ⟨[diceRegW, diceSubW]⟩

/-- A roll of two independent dice sets. -/
def rollW : Roll := ⟨[diceSetW, DiceSet.mk [diceAdvW]]⟩

-- Witnesses: each claim theorem applied at a concrete input.

/-- Witness for C1 at a concrete advantage dice and source. -/
theorem C1_witness :
    1 ≤ diceAdvW.sides ∧
    (∃ res rng1, diceAdvW.roll_dice_from_rng rngW = some (res, rng1) ∧
      ∃ s, res.second_roll = some s ∧
        res.first_roll.length = diceAdvW.number_of_dice_to_roll ∧
        s.length = diceAdvW.number_of_dice_to_roll ∧
        (∀ x ∈ s, 1 ≤ x ∧ x ≤ diceAdvW.sides) ∧
        (diceAdvW.roll_type = RollType.Advantage →
          res.result = max ((res.first_roll.sum : Int) + diceAdvW.modifier.getD 0)
            ((s.sum : Int) + diceAdvW.modifier.getD 0)) ∧
        (diceAdvW.roll_type = RollType.Disadvantage →
          res.result = min ((res.first_roll.sum : Int) + diceAdvW.modifier.getD 0)
            ((s.sum : Int) + diceAdvW.modifier.getD 0))) :=
  ⟨by decide,
   C1_advantage_disadvantage_evaluation diceAdvW rngW (by decide) (Or.inl rfl)⟩

/-- Witness for C3 at a concrete regular dice and source. -/
theorem C3_witness :
    1 ≤ diceRegW.sides ∧ diceRegW.roll_type = RollType.Regular ∧
    (∃ res rng1, diceRegW.roll_dice_from_rng rngW = some (res, rng1) ∧
      res.second_roll = none ∧
      res.result = (res.first_roll.sum : Int) + diceRegW.modifier.getD 0) :=
  ⟨by decide, rfl, C3_regular_evaluation diceRegW rngW (by decide) rfl⟩

/-- Witness for C4 at a concrete advantage dice and source. -/
theorem C4_witness :
    1 ≤ diceAdvW.sides ∧
    (∃ res rng1, diceAdvW.roll_dice_from_rng rngW = some (res, rng1) ∧
      res.first_roll.length = diceAdvW.number_of_dice_to_roll ∧
      (res.second_roll.isSome = true ↔ diceAdvW.roll_type ≠ RollType.Regular) ∧
      (∀ x ∈ res.first_roll, 1 ≤ x ∧ x ≤ diceAdvW.sides) ∧
      ∀ s, res.second_roll = some s →
        s.length = diceAdvW.number_of_dice_to_roll ∧
        ∀ x ∈ s, 1 ≤ x ∧ x ≤ diceAdvW.sides) :=
  ⟨by decide, C4_draw_invariants diceAdvW rngW (by decide)⟩

/-- Witness for C6 at a concrete source, applied to both copies of it. -/
theorem C6_witness :
    rngW.stream = rngW.stream ∧ rngW.idx = rngW.idx ∧
    ((∀ d : Dice, d.roll_dice_from_rng rngW = d.roll_dice_from_rng rngW) ∧
     (∀ ds : DiceSet,
        ds.roll_dice_set_from_rng rngW = ds.roll_dice_set_from_rng rngW) ∧
     (∀ ro : Roll, ro.roll_from_rng rngW = ro.roll_from_rng rngW)) :=
  ⟨rfl, rfl, C6_determinism rngW rngW rfl rfl⟩

/-- Witness for C7 at a concrete dice, set, and roll. -/
theorem C7_witness :
    (diceAdvW.roll_dice_from_rng rngW).isSome = true ∧
    (diceSetW.roll_dice_set_from_rng rngW).isSome = true ∧
    (rollW.roll_from_rng rngW).isSome = true :=
  ⟨C7_evaluation_never_fails.1 diceAdvW rngW (by decide),
   C7_evaluation_never_fails.2.1 diceSetW rngW (by decide),
   C7_evaluation_never_fails.2.2 rollW rngW (by decide)⟩

/-- Witness for C9 at a concrete zero-count dice and source. -/
theorem C9_witness :
    diceZeroW.number_of_dice_to_roll = 0 ∧ 1 ≤ diceZeroW.sides ∧
    (∃ res rng1, diceZeroW.roll_dice_from_rng rngW = some (res, rng1) ∧
      res.first_roll = [] ∧
      (diceZeroW.roll_type ≠ RollType.Regular → res.second_roll = some []) ∧
      (diceZeroW.roll_type = RollType.Regular →
        res.result = diceZeroW.modifier.getD 0)) :=
  ⟨rfl, by decide, C9_zero_count_evaluation diceZeroW rngW rfl (by decide)⟩

/-- Witness for C10 at a concrete dice and source. -/
theorem C10_witness :
    1 ≤ diceRegW.sides ∧
    (∃ ra rngA rd rngD,
      (diceRegW.withRollType RollType.Advantage).roll_dice_from_rng rngW =
        some (ra, rngA) ∧
      (diceRegW.withRollType RollType.Disadvantage).roll_dice_from_rng rngW =
        some (rd, rngD) ∧
      ra.first_roll = rd.first_roll ∧
      ra.second_roll = rd.second_roll ∧
      rngA = rngD ∧
      rd.result ≤ ra.result) :=
  ⟨by decide, C10_advantage_ge_disadvantage diceRegW rngW (by decide)⟩
